import Mathlib

/-!
Verification of the SLP revectorizer pass (`src/compiler/revectorizer.cc`).

The development shallow-embeds the pass: the IR graph is a finite list of
nodes, each holding an operator id (modelling the C++ `Operator*`, so that
operator pointer equality is id equality while two distinct ids may still
carry equal data), ordered inputs, the first-control-input index and a
basic-block id.  The `SLPTree` mutable state (pack registry, recursion
stack, on-stack set, arena allocation counter) is threaded explicitly.
-/

namespace Revec

/-- Opcodes recognized by the pass.  `kOtherSimd128` stands for any other
opcode for which the adapter's 128-bit-SIMD predicate answers true, and
`kOther` for any remaining opcode. -/
inductive IrOpcode where
  | kInt64Constant
  | kInt64Add
  | kChangeUint32ToUint64
  | kLoad
  | kLoadFromObject
  | kProtectedLoad
  | kLoadTransform
  | kStore
  | kProtectedStore
  | kPhi
  | kLoopExitValue
  | kExtractF128
  | kF32x4Add
  | kF32x4Mul
  | kOtherSimd128
  | kOther
  deriving DecidableEq, Repr

/-- Machine representations, collapsed to the one the pass tests for. -/
inductive MachineRep where
  | kSimd128
  | kOtherRep
  deriving DecidableEq, Repr

/-- Load transformations, collapsed to the two the pass accepts. -/
inductive LoadTransformation where
  | kS128Load32Splat
  | kS128Load64Splat
  | kOtherTransform
  deriving DecidableEq, Repr

/-- Data carried by one `Operator` object: opcode, the typed parameter
(`OpParameter`: an `Int64Constant` value or an `ExtractF128` lane index),
the machine representation (for loads, phis, loop exit values), the load
transformation kind, and `ValueInputCount`. -/
structure OperatorData where
  opcode : IrOpcode
  param : Int := 0
  rep : MachineRep := .kOtherRep
  transform : LoadTransformation := .kOtherTransform
  valueInputCount : Nat := 0
  deriving DecidableEq, Repr

/-- One IR node: the id of its `Operator` object, its ordered inputs,
`NodeProperties::FirstControlIndex` (inputs before it are value or effect
inputs) and its basic-block id. -/
structure NodeData where
  opId : Nat
  inputs : List Nat
  firstControlIndex : Nat
  block : Nat
  deriving DecidableEq, Repr

/-- Modelled from the spec: the IR query adapter.  A graph is a finite node
table, an operator table (node `opId`s index into it, so two nodes share an
`Operator` pointer exactly when they share an `opId`), and the per-node
early schedule position (dominating block) used by seed collection. -/
structure Graph where
  nodes : List NodeData
  ops : List OperatorData
  earlySched : List Nat
  deriving DecidableEq, Repr

def defaultNode : NodeData := { opId := 0, inputs := [], firstControlIndex := 0, block := 0 }

def defaultOp : OperatorData := { opcode := .kOther }

def Graph.node (g : Graph) (n : Nat) : NodeData := g.nodes.getD n defaultNode

def Graph.opOf (g : Graph) (n : Nat) : OperatorData := g.ops.getD (g.node n).opId defaultOp

def Graph.opcodeOf (g : Graph) (n : Nat) : IrOpcode := (g.opOf n).opcode

/-- `node->InputAt(i)`. -/
def Graph.inputAt (g : Graph) (n i : Nat) : Nat := (g.node n).inputs.getD i 0

/-- Modelled from the spec: `NodeProperties::FirstControlIndex`. -/
def FirstControlIndex (g : Graph) (n : Nat) : Nat := (g.node n).firstControlIndex

/-- Modelled from the spec: `SLPTree::SameBasicBlock`, the scheduler query
comparing the basic blocks of two nodes. -/
def SameBasicBlock (g : Graph) (a b : Nat) : Bool := decide ((g.node a).block = (g.node b).block)

/-- Modelled from the spec: `NodeProperties::IsConstant`; the only constant
opcode in the embedded universe is `Int64Constant`. -/
def IsConstant (g : Graph) (n : Nat) : Bool := decide (g.opcodeOf n = .kInt64Constant)

/-- Modelled from the spec: `NodeProperties::IsPhi`. -/
def IsPhi (g : Graph) (n : Nat) : Bool := decide (g.opcodeOf n = .kPhi)

/-- Modelled from the spec: the adapter predicate `IsSimd128Operation`.
`LoadTransform` and the pure 128-bit arithmetic opcodes are 128-bit SIMD
operations; `ExtractF128`, stores, plain loads, phis are not (the
`CanBePacked` filter lists those separately). -/
def IsSimd128Operation (g : Graph) (n : Nat) : Bool :=
  match g.opcodeOf n with
  | .kF32x4Add => true
  | .kF32x4Mul => true
  | .kLoadTransform => true
  | .kOtherSimd128 => true
  | _ => false

/-- Modelled from the spec: `kSimd128Size` is 16 bytes. -/
def kSimd128Size : Int := 16

/-- `GetConstantValue` (revectorizer.cc:46): the `Int64Constant` payload,
`-1` for any other node. -/
def GetConstantValue (g : Graph) (n : Nat) : Int :=
  if g.opcodeOf n = .kInt64Constant then (g.opOf n).param else -1

/-- `GetMemoryOffsetValue` (revectorizer.cc:54). -/
def GetMemoryOffsetValue (g : Graph) (n : Nat) : Int :=
  let offset := g.inputAt n 0
  if g.opcodeOf offset = .kLoadFromObject ∨ g.opcodeOf offset = .kLoad then 0
  else if g.opcodeOf offset = .kInt64Add then
    (if IsConstant g (g.inputAt offset 0) then GetConstantValue g (g.inputAt offset 0)
     else if IsConstant g (g.inputAt offset 1) then GetConstantValue g (g.inputAt offset 1)
     else -1)
  else -1

/-- `GetNodeAddress` (revectorizer.cc:80): input 1, looking through
`ChangeUint32ToUint64`. -/
def GetNodeAddress (g : Graph) (n : Nat) : Nat :=
  let address := g.inputAt n 1
  if g.opcodeOf address = .kChangeUint32ToUint64 then g.inputAt address 0 else address

/-- Tail of `IsContinuousAccess`: each successive offset delta must be 16. -/
def IsContinuousAccessFrom (g : Graph) (previous : Int) : List Nat → Bool
  | [] => true
  | n :: rest =>
    if GetMemoryOffsetValue g n - previous ≠ kSimd128Size then false
    else IsContinuousAccessFrom g (GetMemoryOffsetValue g n) rest

/-- `IsContinuousAccess` (revectorizer.cc:89). -/
def IsContinuousAccess (g : Graph) : List Nat → Bool
  | [] => true
  | n :: rest => IsContinuousAccessFrom g (GetMemoryOffsetValue g n) rest

/-- `AllConstant` (revectorizer.cc:105). -/
def AllConstant (g : Graph) (group : List Nat) : Bool := group.all (fun n => IsConstant g n)

/-- `AllSameAddress` (revectorizer.cc:115). -/
def AllSameAddress (g : Graph) : List Nat → Bool
  | [] => true
  | n :: rest => rest.all (fun m => decide (GetNodeAddress g m = GetNodeAddress g n))

/-- `IsSplat` (revectorizer.cc:129). -/
def IsSplat : List Nat → Bool
  | [] => true
  | n :: rest => rest.all (fun m => decide (m = n))

/-- `AllSameOperator` (revectorizer.cc:139): `Operator*` pointer equality,
i.e. equality of the nodes' operator ids. -/
def AllSameOperator (g : Graph) : List Nat → Bool
  | [] => true
  | n :: rest => rest.all (fun m => decide ((g.node m).opId = (g.node n).opId))

/-- The two-element specialization of the `partial_sort_copy` over
`MemoryOffsetComparer` (revectorizer.cc:152, 424-428): sort by ascending
memory offset. -/
def sortByOffset (g : Graph) (group : List Nat) : List Nat :=
  match group with
  | [a, b] => if GetMemoryOffsetValue g b < GetMemoryOffsetValue g a then [b, a] else [a, b]
  | l => l

/-- A `PackNode`: the paired nodes plus the sparse operand map filled in by
`SetOperand` (operand index to pack id). -/
structure PackNode where
  nodes : List Nat
  operands : List (Nat × Nat)
  deriving DecidableEq, Repr

/-- `PackNode::IsSame`: element-wise equality with a group. -/
def PackNode.IsSame (p : PackNode) (group : List Nat) : Bool := decide (p.nodes = group)

/-- Association-list lookup (first binding wins, like repeated
`operator[]` assignment then `find`). -/
def lookupA {α : Type} : List (Nat × α) → Nat → Option α
  | [], _ => none
  | (k, v) :: rest, x => if x = k then some v else lookupA rest x

/-- Replace the value bound to the first occurrence of a key. -/
def updateA {α : Type} : List (Nat × α) → Nat → (α → α) → List (Nat × α)
  | [], _, _ => []
  | (k, v) :: rest, x, f => if k = x then (k, f v) :: rest else (k, v) :: updateA rest x f

/-- Set-style insertion into the on-stack set. -/
def insertSet (x : Nat) (l : List Nat) : List Nat := if x ∈ l then l else x :: l

/-- Set-style erasure from the on-stack set (`std::set::erase`). -/
def eraseSet (x : Nat) (l : List Nat) : List Nat := l.filter (fun y => decide (y ≠ x))

/-- The mutable `SLPTree` state: the arena of allocated `PackNode`s keyed
by allocation id (a zone pointer), the registry `node_to_packnode_`, the
recursion stack `stack_`, the membership set `on_stack_`, and the next
allocation id. -/
structure SLPState where
  packs : List (Nat × PackNode)
  nodeToPack : List (Nat × Nat)
  stack : List (List Nat)
  onStack : List Nat
  nextId : Nat
  deriving DecidableEq, Repr

def initState : SLPState :=
  { packs := [], nodeToPack := [], stack := [], onStack := [], nextId := 0 }

/-- `SLPTree::GetPackNode` (revectorizer.cc:235), returning the pack id. -/
def GetPackNode (s : SLPState) (n : Nat) : Option Nat := lookupA s.nodeToPack n

/-- `SLPTree::NewPackNode` (revectorizer.cc:203): allocate a pack and map
every node of the group to it. -/
def NewPackNode (s : SLPState) (group : List Nat) : Nat × SLPState :=
  (s.nextId,
   { s with
     packs := (s.nextId, { nodes := group, operands := [] }) :: s.packs,
     nodeToPack := group.foldl (fun m n => (n, s.nextId) :: m) s.nodeToPack,
     nextId := s.nextId + 1 })

/-- `PackNode::SetOperand`. -/
def SetOperand (s : SLPState) (pid i child : Nat) : SLPState :=
  { s with packs := updateA s.packs pid (fun p => { p with operands := (i, child) :: p.operands }) }

/-- `SLPTree::PushStack` (revectorizer.cc:243). -/
def PushStack (s : SLPState) (group : List Nat) : SLPState :=
  { s with
    onStack := group.foldl (fun acc n => insertSet n acc) s.onStack,
    stack := group :: s.stack }

/-- `SLPTree::PopStack` (revectorizer.cc:253).  Popping an empty stack is
undefined behaviour in the source; the embedding leaves the state
unchanged in that (unreachable) case. -/
def PopStack (s : SLPState) : SLPState :=
  match s.stack with
  | [] => s
  | group :: rest =>
    { s with onStack := group.foldl (fun acc n => eraseSet n acc) s.onStack, stack := rest }

/-- `SLPTree::OnStack` (revectorizer.cc:265). -/
def OnStack (s : SLPState) (n : Nat) : Bool := decide (n ∈ s.onStack)

/-- `SLPTree::AllOnStack` (revectorizer.cc:269), translated literally: the
loop returns true as soon as one node of the group is on the stack. -/
def AllOnStack (s : SLPState) : List Nat → Bool
  | [] => false
  | n :: rest => if OnStack s n then true else AllOnStack s rest

/-- `SLPTree::StackTopIsPhi` (revectorizer.cc:276).  Reading the top of an
empty stack is undefined behaviour in the source; the embedding answers
false in that (unreachable) case. -/
def StackTopIsPhi (g : Graph) (s : SLPState) : Bool :=
  match s.stack with
  | group :: _ => IsPhi g (group.headD 0)
  | [] => false

/-- `SLPTree::ClearStack` (revectorizer.cc:282). -/
def ClearStack (s : SLPState) : SLPState := { s with stack := [], onStack := [] }

/-- `SLPTree::DeleteTree` (revectorizer.cc:510). -/
def DeleteTree (s : SLPState) : SLPState := { ClearStack s with nodeToPack := [] }

/-- The trailing opcode filter of `CanBePacked` (revectorizer.cc:192-200). -/
def SupportedOpcodeFilter (g : Graph) (n : Nat) : Bool :=
  IsSimd128Operation g n ||
  (match g.opcodeOf n with
   | .kStore => true
   | .kProtectedStore => true
   | .kLoad => true
   | .kProtectedLoad => true
   | .kPhi => true
   | .kLoopExitValue => true
   | .kExtractF128 => true
   | _ => false)

/-- `SLPTree::CanBePacked` (revectorizer.cc:167). -/
def CanBePacked (g : Graph) (group : List Nat) : Bool :=
  SameBasicBlock g (group.getD 0 0) (group.getD 1 0) &&
  (AllSameOperator g group &&
   (!AllConstant g group && SupportedOpcodeFilter g (group.getD 0 0)))

/-- The push sequence of the initialization loop of `IsSideEffectFreeLoad`
(revectorizer.cc:297-306): all value-or-effect inputs of the group's loads
that are not themselves members of the group, in push order. -/
def sefPushSeq (g : Graph) (group : List Nat) : List Nat :=
  group.foldl
    (fun acc load =>
      acc ++ (((g.node load).inputs.take (FirstControlIndex g load)).filter
        (fun i => decide (i ∉ group))))
    []

/-- The worklist loop of `IsSideEffectFreeLoad` (revectorizer.cc:311-335),
with explicit fuel.  The head of `toVisit` is the top of the `std::stack`;
a node expanded in the same basic block pushes its value-or-effect inputs
so that they pop in reverse input order, as in the source. -/
def sefLoop (g : Graph) (s : SLPState) (group0 : Nat) :
    Nat → List Nat → List Nat → Option Bool
  | 0, _, _ => none
  | _ + 1, [], _ => some true
  | fuel + 1, input :: rest, visited =>
    if input ∈ visited then sefLoop g s group0 fuel rest visited
    else
      if OnStack s input then some false
      else if SameBasicBlock g input group0 then
        sefLoop g s group0 fuel
          (((g.node input).inputs.take (FirstControlIndex g input)).reverse ++ rest)
          (input :: visited)
      else sefLoop g s group0 fuel rest (input :: visited)

/-- The greatest `FirstControlIndex` over the node table; each worklist
expansion pushes at most this many inputs. -/
def Graph.maxInputs (g : Graph) : Nat :=
  g.nodes.foldl (fun m nd => max m nd.firstControlIndex) 0

/-- Number of graph nodes not yet visited. -/
def countUnvisited (g : Graph) (visited : List Nat) : Nat :=
  ((List.range g.nodes.length).filter (fun x => decide (x ∉ visited))).length

/-- Termination measure of the worklist loop. -/
def sefMeasure (g : Graph) (visited toVisit : List Nat) : Nat :=
  countUnvisited g visited * (g.maxInputs + 1) + toVisit.length

/-- Fuel sufficient for the worklist loop to run to completion. -/
def sefFuel (g : Graph) (init : List Nat) : Nat := sefMeasure g [] init + 1

/-- The full call of the worklist search made by `IsSideEffectFreeLoad`. -/
def sefCall (g : Graph) (s : SLPState) (group : List Nat) : Option Bool :=
  sefLoop g s (group.headD 0) (sefFuel g (sefPushSeq g group).reverse)
    (sefPushSeq g group).reverse []

/-- `SLPTree::IsSideEffectFreeLoad` (revectorizer.cc:287).  The fuel is
provably sufficient (`sefLoop_total`), so the default never fires. -/
def IsSideEffectFreeLoad (g : Graph) (s : SLPState) (group : List Nat) : Bool :=
  (sefCall g s group).getD false

/-- The duplicate-entry scan of `BuildTreeRec` (revectorizer.cc:376): the
pack id of the first group member present in the registry. -/
def findRegistered (s : SLPState) : List Nat → Option Nat
  | [] => none
  | n :: rest =>
    match GetPackNode s n with
    | some pid => some pid
    | none => findRegistered s rest

/-- `p->IsSame(node_group)` for the pack id found in the registry. -/
def packIsSame (s : SLPState) (pid : Nat) (group : List Nat) : Bool :=
  match lookupA s.packs pid with
  | some p => p.IsSame group
  | none => false

/-- Modelled from the spec: `RecursionMaxDepth` (declared in the pass's
header, not part of src/); the spec picks the small constant 8. -/
def RecursionMaxDepth : Nat := 8

/-- The operand loop of `SLPTree::NewPackNodeAndRecurs`
(revectorizer.cc:217-231), abstracted over the recursive call. -/
def recursOperands (recCall : List Nat → SLPState → Option Nat × SLPState)
    (g : Graph) (group : List Nat) (pid : Nat) :
    List Nat → SLPState → Option Nat × SLPState
  | [], s => (some pid, s)
  | i :: rest, s =>
    match recCall (group.map (fun nj => g.inputAt nj i)) s with
    | (some child, s2) => recursOperands recCall g group pid rest (SetOperand s2 pid i child)
    | (none, s2) => (none, s2)

/-- `SLPTree::NewPackNodeAndRecurs` (revectorizer.cc:213). -/
def NewPackNodeAndRecurs (recCall : List Nat → SLPState → Option Nat × SLPState)
    (g : Graph) (group : List Nat) (start count : Nat) (s : SLPState) :
    Option Nat × SLPState :=
  let p := NewPackNode s group
  recursOperands recCall g group p.1 (List.range' start count) p.2

/-- The opcode dispatch of `BuildTreeRec` after the preflight checks
(revectorizer.cc:392-507), abstracted over the recursive call. -/
def dispatch (recCall : List Nat → SLPState → Option Nat × SLPState)
    (g : Graph) (group : List Nat) (s1 : SLPState) : Option Nat × SLPState :=
  let node0 := group.getD 0 0
  let node1 := group.getD 1 0
  if g.opcodeOf node0 = .kExtractF128 then
    if g.inputAt node0 0 = g.inputAt node1 0 ∧
        (if g.opcodeOf (g.inputAt node0 0) = .kLoadTransform then node0 = node1
         else (g.opOf node0).param + 1 = (g.opOf node1).param) then
      let p := NewPackNode s1 group
      (some p.1, PopStack p.2)
    else (none, s1)
  else if g.opcodeOf node0 = .kProtectedLoad ∨ g.opcodeOf node0 = .kLoadTransform then
    if !AllSameAddress g group then (none, s1)
    else if g.opcodeOf node0 = .kProtectedLoad ∧ (g.opOf node0).rep ≠ .kSimd128 then (none, s1)
    else if g.opcodeOf node0 = .kProtectedLoad ∧
        IsContinuousAccess g (sortByOffset g group) = false then (none, s1)
    else if g.opcodeOf node0 = .kLoadTransform ∧ IsSplat group = false then (none, s1)
    else if g.opcodeOf node0 = .kLoadTransform ∧
        ¬((g.opOf node0).transform = .kS128Load32Splat ∨
          (g.opOf node0).transform = .kS128Load64Splat) then (none, s1)
    else if !IsSideEffectFreeLoad g s1 group then (none, s1)
    else
      let p := NewPackNode s1 group
      (some p.1, PopStack p.2)
  else
    match g.opcodeOf node0 with
    | .kPhi =>
      if (g.opOf node0).rep ≠ .kSimd128 then (none, s1)
      else
        let r := NewPackNodeAndRecurs recCall g group 0 (g.opOf node0).valueInputCount s1
        (r.1, PopStack r.2)
    | .kLoopExitValue =>
      if (g.opOf node0).rep ≠ .kSimd128 then (none, s1)
      else
        let r := NewPackNodeAndRecurs recCall g group 0 (g.opOf node0).valueInputCount s1
        (r.1, PopStack r.2)
    | .kF32x4Add =>
      let r := NewPackNodeAndRecurs recCall g group 0 (g.opOf node0).valueInputCount s1
      (r.1, PopStack r.2)
    | .kF32x4Mul =>
      let r := NewPackNodeAndRecurs recCall g group 0 (g.opOf node0).valueInputCount s1
      (r.1, PopStack r.2)
    | .kStore =>
      if !AllSameAddress g group then (none, s1)
      else
        let r := NewPackNodeAndRecurs recCall g group 2 1 s1
        (r.1, PopStack r.2)
    | .kProtectedStore =>
      if !AllSameAddress g group then (none, s1)
      else
        let r := NewPackNodeAndRecurs recCall g group 2 1 s1
        (r.1, PopStack r.2)
    | _ => (none, s1)

/-- `SLPTree::BuildTreeRec` (revectorizer.cc:347).  The fuel argument is
`RecursionMaxDepth - recursion_depth`, so fuel 0 is the depth-cap check. -/
def BuildTreeRec (g : Graph) : Nat → List Nat → SLPState → Option Nat × SLPState
  | 0 => fun _ s => (none, s)
  | fuel + 1 => fun group s =>
    if AllOnStack s group && !StackTopIsPhi g s then (none, s)
    else
      let s1 := PushStack s group
      if !CanBePacked g group then (none, s1)
      else
        match findRegistered s1 group with
        | some pid =>
          if packIsSame s1 pid group then (some pid, PopStack s1) else (none, s1)
        | none => dispatch (BuildTreeRec g fuel) g group s1

/-- `SLPTree::BuildTree` (revectorizer.cc:338). -/
def BuildTree (g : Graph) (roots : List Nat) (s : SLPState) : Option Nat × SLPState :=
  BuildTreeRec g RecursionMaxDepth roots (DeleteTree s)

/-- Insertion into a `StoreNodeSet` (a `ZoneSet` ordered by
`MemoryOffsetComparer`): keeps ascending offset order and drops a node
whose offset is equivalent to an existing member's. -/
def storeSetInsert (g : Graph) : List Nat → Nat → List Nat
  | [], n => [n]
  | m :: rest, n =>
    if GetMemoryOffsetValue g n < GetMemoryOffsetValue g m then n :: m :: rest
    else if GetMemoryOffsetValue g m < GetMemoryOffsetValue g n then m :: storeSetInsert g rest n
    else m :: rest

/-- Insertion into the second-level map (base address to store set). -/
def addrMapInsert (g : Graph) : List (Nat × List Nat) → Nat → Nat → List (Nat × List Nat)
  | [], addr, n => [(addr, storeSetInsert g [] n)]
  | (a, set) :: rest, addr, n =>
    if a = addr then (a, storeSetInsert g set n) :: rest
    else (a, set) :: addrMapInsert g rest addr n

/-- Insertion into the first-level map (dominator block to address map). -/
def domMapInsert (g : Graph) :
    List (Nat × List (Nat × List Nat)) → Nat → Nat → Nat → List (Nat × List (Nat × List Nat))
  | [], dom, addr, n => [(dom, addrMapInsert g [] addr n)]
  | (d, m) :: rest, dom, addr, n =>
    if d = dom then (d, addrMapInsert g m addr n) :: rest
    else (d, m) :: domMapInsert g rest dom addr n

/-- `Revectorizer::CollectSeeds` (revectorizer.cc:560), over the adapter's
list of 128-bit store nodes.  `%` is C++ truncated remainder (`Int.tmod`). -/
def CollectSeeds (g : Graph) (stores : List Nat) : List (Nat × List (Nat × List Nat)) :=
  stores.foldl
    (fun gos node =>
      if (GetMemoryOffsetValue g node).tmod kSimd128Size ≠ 0 then gos
      else domMapInsert g gos (g.earlySched.getD node 0) (GetNodeAddress g node) node)
    []

/-- Membership of a node in some store set of the group-of-stores map. -/
def seedMem (gos : List (Nat × List (Nat × List Nat))) (x : Nat) : Prop :=
  ∃ e ∈ gos, ∃ a ∈ e.2, x ∈ a.2

/-- `Revectorizer::ReduceStoreChain` (revectorizer.cc:608). -/
def ReduceStoreChain (g : Graph) (st : SLPState) (Stores : List Nat) : Bool × SLPState :=
  if IsContinuousAccess g Stores = false then (false, st)
  else
    match BuildTree g Stores st with
    | (some _, st2) => (true, st2)
    | (none, st2) => (false, st2)

/-- Consecutive non-overlapping two-element groups of a list (the stride-2
walk of revectorizer.cc:596-597). -/
def chunkPairs : List Nat → List (List Nat)
  | a :: b :: rest => [a, b] :: chunkPairs rest
  | _ => []

/-- The two-element groups `ReduceStoreChains` extracts from one chain:
none unless the chain's size is at least 2 and even. -/
def storeUnits (chain : List Nat) : List (List Nat) :=
  if 2 ≤ chain.length ∧ chain.length % 2 = 0 then chunkPairs chain else []

/-- `Revectorizer::ReduceStoreChains` (revectorizer.cc:587), over the inner
map's (address, offset-ordered store set) entries. -/
def ReduceStoreChains (g : Graph) (st : SLPState) (chains : List (Nat × List Nat)) :
    Bool × SLPState :=
  chains.foldl
    (fun acc entry =>
      (storeUnits entry.2).foldl
        (fun acc2 unit =>
          let r := ReduceStoreChain g acc2.2 unit
          (acc2.1 || r.1, r.2))
        acc)
    (false, st)

/-- All allocated pack ids are below the allocation counter. -/
def packsBound (s : SLPState) : Prop :=
  ∀ pid p, lookupA s.packs pid = some p → pid < s.nextId

/-- The registry invariant, relative to the allocation counter `start` at
the beginning of the current `BuildTree` call: every registered node
belongs to the pack it is mapped to, and every node of a pack allocated
during the call is mapped back to exactly that pack. -/
def StateWF (start : Nat) (s : SLPState) : Prop :=
  start ≤ s.nextId ∧ packsBound s ∧
  (∀ n pid, lookupA s.nodeToPack n = some pid →
    start ≤ pid ∧ ∃ p, lookupA s.packs pid = some p ∧ n ∈ p.nodes) ∧
  (∀ pid p, start ≤ pid → lookupA s.packs pid = some p →
    ∀ n ∈ p.nodes, lookupA s.nodeToPack n = some pid)

/-- No IR node belongs to two different packs allocated during the current
`BuildTree` call. -/
def RegistryUnique (start : Nat) (s : SLPState) : Prop :=
  ∀ pid1 pid2 p1 p2 n, start ≤ pid1 → start ≤ pid2 →
    lookupA s.packs pid1 = some p1 → lookupA s.packs pid2 = some p2 →
    n ∈ p1.nodes → n ∈ p2.nodes → pid1 = pid2

/-- The offset extractor exactly as the spec words it (section 4.B): 0
under a load-from-memory input, the value of an `Int64Constant` input of
an `Int64Add` (the first input taking precedence), the sentinel -1 for
every other shape. -/
def offsetSpec (g : Graph) (n : Nat) : Int :=
  match g.opcodeOf (g.inputAt n 0) with
  | .kLoad => 0
  | .kLoadFromObject => 0
  | .kInt64Add =>
    if g.opcodeOf (g.inputAt (g.inputAt n 0) 0) = .kInt64Constant then
      (g.opOf (g.inputAt (g.inputAt n 0) 0)).param
    else if g.opcodeOf (g.inputAt (g.inputAt n 0) 1) = .kInt64Constant then
      (g.opOf (g.inputAt (g.inputAt n 0) 1)).param
    else -1
  | _ => -1

/-! Concrete example graphs used to instantiate the theorems. -/

/-- Two same-block nodes with distinct operators (`F32x4Add` vs
`F32x4Mul`); `CanBePacked` rejects the pair after the push. -/
def gMismatch : Graph :=
  { nodes := [ { opId := 0, inputs := [], firstControlIndex := 0, block := 0 },
               { opId := 1, inputs := [], firstControlIndex := 0, block := 0 } ],
    ops := [ { opcode := .kF32x4Add, valueInputCount := 2 },
             { opcode := .kF32x4Mul, valueInputCount := 2 } ],
    earlySched := [0, 0] }

/-- A packable pair: two `F32x4Add` nodes sharing two `LoadTransform`
splat operands whose base inputs live in another block. -/
def gPair : Graph :=
  { nodes := [ { opId := 0, inputs := [2, 3], firstControlIndex := 2, block := 1 },
               { opId := 0, inputs := [2, 3], firstControlIndex := 2, block := 1 },
               { opId := 1, inputs := [4, 5], firstControlIndex := 2, block := 1 },
               { opId := 1, inputs := [4, 5], firstControlIndex := 2, block := 1 },
               { opId := 2, inputs := [], firstControlIndex := 0, block := 0 },
               { opId := 2, inputs := [], firstControlIndex := 0, block := 0 } ],
    ops := [ { opcode := .kF32x4Add, valueInputCount := 2 },
             { opcode := .kLoadTransform, transform := .kS128Load32Splat, valueInputCount := 2 },
             { opcode := .kOther } ],
    earlySched := [1, 1, 1, 1, 0, 0] }

/-- A state whose stack holds one non-phi group containing node 0 (and a
node 5 foreign to the groups considered). -/
def stateHalf : SLPState :=
  { packs := [], nodeToPack := [], stack := [[0, 5]], onStack := [0, 5], nextId := 0 }

/-- `ExtractF128` examples: nodes 1 and 2 extract consecutive lanes 0 and
1 of a non-`LoadTransform` SIMD source 0; node 3 extracts lane 0 of the
`LoadTransform` splat source 4. -/
def gExtract : Graph :=
  { nodes := [ { opId := 0, inputs := [], firstControlIndex := 0, block := 0 },
               { opId := 1, inputs := [0], firstControlIndex := 1, block := 0 },
               { opId := 2, inputs := [0], firstControlIndex := 1, block := 0 },
               { opId := 3, inputs := [4], firstControlIndex := 1, block := 0 },
               { opId := 4, inputs := [], firstControlIndex := 0, block := 0 } ],
    ops := [ { opcode := .kOtherSimd128 },
             { opcode := .kExtractF128, param := 0 },
             { opcode := .kExtractF128, param := 1 },
             { opcode := .kExtractF128, param := 0 },
             { opcode := .kLoadTransform, transform := .kS128Load32Splat } ],
    earlySched := [0, 0, 0, 0, 0] }

/-- Two contiguous 128-bit `ProtectedLoad`s (offsets 0 and 16 via a
`LoadFromObject` base and an `Int64Add` of an `Int64Constant` 16), same
index node 1, all other inputs in another block. -/
def gLoads : Graph :=
  { nodes := [ { opId := 0, inputs := [], firstControlIndex := 0, block := 0 },
               { opId := 0, inputs := [], firstControlIndex := 0, block := 0 },
               { opId := 1, inputs := [], firstControlIndex := 0, block := 0 },
               { opId := 2, inputs := [4, 0], firstControlIndex := 2, block := 0 },
               { opId := 3, inputs := [], firstControlIndex := 0, block := 0 },
               { opId := 0, inputs := [], firstControlIndex := 0, block := 0 },
               { opId := 4, inputs := [2, 1], firstControlIndex := 2, block := 1 },
               { opId := 4, inputs := [3, 1], firstControlIndex := 2, block := 1 } ],
    ops := [ { opcode := .kOther },
             { opcode := .kLoadFromObject },
             { opcode := .kInt64Add },
             { opcode := .kInt64Constant, param := 16 },
             { opcode := .kProtectedLoad, rep := .kSimd128 } ],
    earlySched := [0, 0, 0, 0, 0, 0, 1, 1] }

/-- Two plain `Load` nodes sharing one operator. -/
def gPlainLoads : Graph :=
  { nodes := [ { opId := 0, inputs := [], firstControlIndex := 0, block := 0 },
               { opId := 0, inputs := [], firstControlIndex := 0, block := 0 } ],
    ops := [ { opcode := .kLoad, rep := .kSimd128 } ],
    earlySched := [0, 0] }

/-- A state in which nodes 0 and 1 are already registered to pack 0 — the
situation a diamond re-encounter finds. -/
def statePacked : SLPState :=
  { packs := [(0, { nodes := [0, 1], operands := [] })],
    nodeToPack := [(0, 0), (1, 0)],
    stack := [], onStack := [], nextId := 1 }

/-- A 128-bit store whose input 0 is an opaque node: unrecognized
addressing. -/
def gBadStore : Graph :=
  { nodes := [ { opId := 0, inputs := [1, 2], firstControlIndex := 2, block := 0 },
               { opId := 1, inputs := [], firstControlIndex := 0, block := 0 },
               { opId := 1, inputs := [], firstControlIndex := 0, block := 0 } ],
    ops := [ { opcode := .kProtectedStore }, { opcode := .kOther } ],
    earlySched := [0, 0, 0] }

/-! Helper lemmas about the association lists and the state operations. -/

theorem lookupA_cons {α : Type} (k : Nat) (v : α) (l : List (Nat × α)) (x : Nat) :
    lookupA ((k, v) :: l) x = if x = k then some v else lookupA l x := rfl

theorem lookupA_nil {α : Type} (x : Nat) : lookupA ([] : List (Nat × α)) x = none := rfl

theorem lookupA_updateA {α : Type} (l : List (Nat × α)) (k : Nat) (f : α → α) (x : Nat) :
    lookupA (updateA l k f) x =
      if x = k then Option.map f (lookupA l k) else lookupA l x := by
  induction l with
  | nil => simp [updateA, lookupA]
  | cons hd tl ih =>
    obtain ⟨k0, v⟩ := hd
    by_cases hk : k0 = k
    · subst hk
      by_cases hx : x = k0 <;> simp [updateA, lookupA, hx]
    · by_cases hx : x = k0
      · subst hx
        have hxk : ¬x = k := hk
        simp [updateA, hk, lookupA, hxk]
      · simp [updateA, hk, Ne.symm hk, lookupA, hx, ih]

theorem lookupA_foldl_group (group : List Nat) (pid : Nat) (m0 : List (Nat × Nat)) (x : Nat) :
    lookupA (group.foldl (fun m n => (n, pid) :: m) m0) x =
      if x ∈ group then some pid else lookupA m0 x := by
  induction group generalizing m0 with
  | nil => simp
  | cons a t ih =>
    simp only [List.foldl_cons]
    rw [ih]
    by_cases hx : x ∈ t
    · simp [hx, List.mem_cons]
    · by_cases hxa : x = a
      · subst hxa; simp [hx, lookupA]
      · simp [hx, hxa, lookupA]

theorem mem_insertSet (x a : Nat) (l : List Nat) : x ∈ insertSet a l ↔ x = a ∨ x ∈ l := by
  unfold insertSet
  by_cases h : a ∈ l
  · simp only [if_pos h]
    constructor
    · exact fun hx => Or.inr hx
    · rintro (rfl | hx)
      · exact h
      · exact hx
  · simp only [if_neg h, List.mem_cons]

theorem mem_eraseSet (x a : Nat) (l : List Nat) : x ∈ eraseSet a l ↔ x ∈ l ∧ x ≠ a := by
  simp [eraseSet]

theorem mem_insertAll (group l : List Nat) (x : Nat) :
    x ∈ group.foldl (fun acc n => insertSet n acc) l ↔ x ∈ l ∨ x ∈ group := by
  induction group generalizing l with
  | nil => simp
  | cons a t ih =>
    simp only [List.foldl_cons]
    rw [ih]
    simp only [mem_insertSet, List.mem_cons]
    tauto

theorem mem_eraseAll (group l : List Nat) (x : Nat) :
    x ∈ group.foldl (fun acc n => eraseSet n acc) l ↔ x ∈ l ∧ x ∉ group := by
  induction group generalizing l with
  | nil => simp
  | cons a t ih =>
    simp only [List.foldl_cons]
    rw [ih]
    simp only [mem_eraseSet, List.mem_cons]
    tauto

theorem pushStack_packs (s : SLPState) (group : List Nat) :
    (PushStack s group).packs = s.packs := rfl

theorem pushStack_nodeToPack (s : SLPState) (group : List Nat) :
    (PushStack s group).nodeToPack = s.nodeToPack := rfl

theorem pushStack_nextId (s : SLPState) (group : List Nat) :
    (PushStack s group).nextId = s.nextId := rfl

theorem pushStack_stack (s : SLPState) (group : List Nat) :
    (PushStack s group).stack = group :: s.stack := rfl

theorem popStack_packs (s : SLPState) : (PopStack s).packs = s.packs := by
  unfold PopStack; split <;> rfl

theorem popStack_nodeToPack (s : SLPState) : (PopStack s).nodeToPack = s.nodeToPack := by
  unfold PopStack; split <;> rfl

theorem popStack_nextId (s : SLPState) : (PopStack s).nextId = s.nextId := by
  unfold PopStack; split <;> rfl

theorem popStack_of_stack_eq (s : SLPState) (group : List Nat) (rest : List (List Nat))
    (h : s.stack = group :: rest) :
    PopStack s =
      { s with
        onStack := group.foldl (fun acc n => eraseSet n acc) s.onStack,
        stack := rest } := by
  unfold PopStack
  rw [h]

theorem setOperand_stack (s : SLPState) (pid i c : Nat) :
    (SetOperand s pid i c).stack = s.stack := rfl

theorem setOperand_onStack (s : SLPState) (pid i c : Nat) :
    (SetOperand s pid i c).onStack = s.onStack := rfl

theorem setOperand_nodeToPack (s : SLPState) (pid i c : Nat) :
    (SetOperand s pid i c).nodeToPack = s.nodeToPack := rfl

theorem setOperand_nextId (s : SLPState) (pid i c : Nat) :
    (SetOperand s pid i c).nextId = s.nextId := rfl

theorem newPackNode_fst (s : SLPState) (group : List Nat) :
    (NewPackNode s group).1 = s.nextId := rfl

theorem newPackNode_stack (s : SLPState) (group : List Nat) :
    ((NewPackNode s group).2).stack = s.stack := rfl

theorem newPackNode_onStack (s : SLPState) (group : List Nat) :
    ((NewPackNode s group).2).onStack = s.onStack := rfl

theorem newPackNode_nextId (s : SLPState) (group : List Nat) :
    ((NewPackNode s group).2).nextId = s.nextId + 1 := rfl

theorem newPackNode_packs (s : SLPState) (group : List Nat) :
    ((NewPackNode s group).2).packs =
      (s.nextId, { nodes := group, operands := [] }) :: s.packs := rfl

theorem newPackNode_lookup (s : SLPState) (group : List Nat) (x : Nat) :
    lookupA ((NewPackNode s group).2).nodeToPack x =
      if x ∈ group then some s.nextId else lookupA s.nodeToPack x :=
  lookupA_foldl_group group s.nextId s.nodeToPack x

theorem allOnStack_iff (s : SLPState) (group : List Nat) :
    AllOnStack s group = true ↔ ∃ n ∈ group, OnStack s n = true := by
  induction group with
  | nil => simp [AllOnStack]
  | cons a t ih =>
    simp only [AllOnStack]
    by_cases h : OnStack s a = true
    · simp [h]
    · rw [if_neg h, ih]
      constructor
      · rintro ⟨n, hn, hon⟩
        exact ⟨n, List.mem_cons_of_mem a hn, hon⟩
      · rintro ⟨n, hor, hon⟩
        rcases List.mem_cons.mp hor with rfl | hn
        · exact absurd hon h
        · exact ⟨n, hn, hon⟩

theorem findRegistered_eq_none (s : SLPState) (l : List Nat) :
    findRegistered s l = none ↔ ∀ n ∈ l, GetPackNode s n = none := by
  induction l with
  | nil => simp [findRegistered]
  | cons a t ih =>
    simp only [findRegistered]
    cases h : GetPackNode s a with
    | some pid => simp [h]
    | none => simp [h, ih]

/-! Termination of the dependency-prober worklist loop. -/

theorem getD_mem_of_lt {α : Type} (l : List α) (n : Nat) (d : α) (h : n < l.length) :
    l.getD n d ∈ l := by
  induction l generalizing n with
  | nil => simp at h
  | cons a t ih =>
    cases n with
    | zero => simp [List.getD_cons_zero]
    | succ m =>
      have hm : m < t.length := by simpa using h
      rw [List.getD_cons_succ]
      exact List.mem_cons_of_mem a (ih m hm)

theorem node_mem_of_lt (g : Graph) (n : Nat) (h : n < g.nodes.length) : g.node n ∈ g.nodes :=
  getD_mem_of_lt _ _ _ h

theorem node_eq_default_of_ge (g : Graph) (n : Nat) (h : g.nodes.length ≤ n) :
    g.node n = defaultNode :=
  List.getD_eq_default _ _ h

theorem foldl_max_init_le (l : List NodeData) (init : Nat) :
    init ≤ l.foldl (fun m nd => max m nd.firstControlIndex) init := by
  induction l generalizing init with
  | nil => simp
  | cons a t ih =>
    simp only [List.foldl_cons]
    exact le_trans (le_max_left _ _) (ih _)

theorem fci_mem_le_foldl (l : List NodeData) (b : NodeData) (hb : b ∈ l) (init : Nat) :
    b.firstControlIndex ≤ l.foldl (fun m nd => max m nd.firstControlIndex) init := by
  induction l generalizing init with
  | nil => cases hb
  | cons a t ih =>
    simp only [List.foldl_cons]
    rcases List.mem_cons.mp hb with rfl | hbt
    · exact le_trans (le_max_right _ _) (foldl_max_init_le _ _)
    · exact ih hbt _

theorem fci_le_maxInputs (g : Graph) (n : Nat) (h : n < g.nodes.length) :
    FirstControlIndex g n ≤ g.maxInputs :=
  fci_mem_le_foldl _ _ (node_mem_of_lt g n h) 0

theorem filter_imp_length_le (l : List Nat) (p q : Nat → Bool)
    (h : ∀ a, p a = true → q a = true) :
    (l.filter p).length ≤ (l.filter q).length := by
  induction l with
  | nil => simp
  | cons a t ih =>
    rw [List.filter_cons, List.filter_cons]
    by_cases hp : p a = true
    · rw [if_pos hp, if_pos (h a hp)]
      simpa using ih
    · rw [if_neg hp]
      by_cases hq : q a = true
      · rw [if_pos hq]
        exact le_trans ih (by simp)
      · rw [if_neg hq]
        exact ih

theorem countUnvisited_cons_le (g : Graph) (x : Nat) (visited : List Nat) :
    countUnvisited g (x :: visited) ≤ countUnvisited g visited := by
  unfold countUnvisited
  apply filter_imp_length_le
  intro a ha
  simp only [decide_eq_true_eq, List.mem_cons] at ha ⊢
  tauto

theorem filter_notMem_cons_length (l : List Nat) (x : Nat) (visited : List Nat)
    (hx : x ∈ l) (hnd : l.Nodup) (hnv : x ∉ visited) :
    (l.filter (fun y => decide (y ∉ x :: visited))).length + 1 =
      (l.filter (fun y => decide (y ∉ visited))).length := by
  induction l with
  | nil => cases hx
  | cons a t ih =>
    have hnd' : t.Nodup := (List.nodup_cons.mp hnd).2
    have hant : a ∉ t := (List.nodup_cons.mp hnd).1
    rw [List.filter_cons, List.filter_cons]
    rcases List.mem_cons.mp hx with rfl | hxt
    · have h1 : (decide (x ∉ x :: visited)) = false := by simp
      have h2 : (decide (x ∉ visited)) = true := by simpa using hnv
      rw [h1, h2]
      simp only [Bool.false_eq_true, if_false, if_true]
      have heq : t.filter (fun y => decide (y ∉ x :: visited)) =
          t.filter (fun y => decide (y ∉ visited)) := by
        apply List.filter_congr
        intro b hb
        have hba : ¬b = x := fun hh => hant (hh ▸ hb)
        simp [List.mem_cons, hba]
      rw [heq, List.length_cons]
    · have hax : ¬a = x := fun hh => hant (hh ▸ hxt)
      have hsame : (decide (a ∉ x :: visited)) = (decide (a ∉ visited)) := by
        simp [List.mem_cons, hax]
      rw [hsame]
      by_cases ha : (decide (a ∉ visited)) = true
      · rw [if_pos ha, if_pos ha]
        simp only [List.length_cons]
        have := ih hxt hnd'
        omega
      · rw [if_neg ha, if_neg ha]
        exact ih hxt hnd'

theorem countUnvisited_cons_of_mem (g : Graph) (x : Nat) (visited : List Nat)
    (hx : x < g.nodes.length) (hnv : x ∉ visited) :
    countUnvisited g (x :: visited) + 1 = countUnvisited g visited :=
  filter_notMem_cons_length _ x visited (List.mem_range.mpr hx) (List.nodup_range _) hnv

theorem sefLoop_total (g : Graph) (s : SLPState) (group0 : Nat) :
    ∀ fuel toVisit visited, sefMeasure g visited toVisit < fuel →
      (sefLoop g s group0 fuel toVisit visited).isSome = true := by
  intro fuel
  induction fuel with
  | zero =>
    intro toVisit visited h
    exact absurd h (Nat.not_lt_zero _)
  | succ fuel ih =>
    intro toVisit visited h
    cases toVisit with
    | nil => simp [sefLoop]
    | cons input rest =>
      simp only [sefLoop]
      by_cases hv : input ∈ visited
      · rw [if_pos hv]
        apply ih
        unfold sefMeasure at h ⊢
        simp only [List.length_cons] at h
        omega
      · rw [if_neg hv]
        by_cases hos : OnStack s input = true
        · rw [if_pos hos]
          rfl
        · rw [if_neg hos]
          by_cases hbb : SameBasicBlock g input group0 = true
          · rw [if_pos hbb]
            apply ih
            by_cases hlt : input < g.nodes.length
            · have hc := countUnvisited_cons_of_mem g input visited hlt hv
              have hfci : FirstControlIndex g input ≤ g.maxInputs := fci_le_maxInputs g input hlt
              have hlen :
                  (((g.node input).inputs.take (FirstControlIndex g input)).reverse).length ≤
                    g.maxInputs := by
                rw [List.length_reverse, List.length_take]
                exact le_trans (min_le_left _ _) hfci
              have hprod : countUnvisited g visited * (g.maxInputs + 1) =
                  countUnvisited g (input :: visited) * (g.maxInputs + 1) + (g.maxInputs + 1) := by
                rw [← hc, Nat.succ_mul]
              unfold sefMeasure at h ⊢
              rw [hprod] at h
              simp only [List.length_append, List.length_cons] at h ⊢
              generalize countUnvisited g (input :: visited) * (g.maxInputs + 1) = A at h ⊢
              omega
            · have hdef : g.node input = defaultNode :=
                node_eq_default_of_ge g input (Nat.le_of_not_lt hlt)
              have hfz : FirstControlIndex g input = 0 := by
                unfold FirstControlIndex
                rw [hdef]
                rfl
              have hle := countUnvisited_cons_le g input visited
              have hmul := Nat.mul_le_mul_right (g.maxInputs + 1) hle
              unfold sefMeasure at h ⊢
              rw [hfz, hdef]
              simp only [List.take_zero, List.reverse_nil, List.nil_append,
                List.length_cons] at h ⊢
              generalize countUnvisited g (input :: visited) * (g.maxInputs + 1) = A at hmul ⊢
              generalize countUnvisited g visited * (g.maxInputs + 1) = B at hmul h
              omega
          · rw [if_neg hbb]
            apply ih
            have hle := countUnvisited_cons_le g input visited
            have hmul := Nat.mul_le_mul_right (g.maxInputs + 1) hle
            unfold sefMeasure at h ⊢
            simp only [List.length_cons] at h
            generalize countUnvisited g (input :: visited) * (g.maxInputs + 1) = A at hmul ⊢
            generalize countUnvisited g visited * (g.maxInputs + 1) = B at hmul h
            omega

theorem sefCall_isSome (g : Graph) (s : SLPState) (group : List Nat) :
    (sefCall g s group).isSome = true := by
  unfold sefCall sefFuel
  apply sefLoop_total
  omega

/-! Monotonicity of the allocation counter. -/

theorem recursOperands_nextId
    (recCall : List Nat → SLPState → Option Nat × SLPState)
    (hrec : ∀ gr st, st.nextId ≤ ((recCall gr st).2).nextId)
    (g : Graph) (group : List Nat) (pid : Nat) :
    ∀ is s, s.nextId ≤ ((recursOperands recCall g group pid is s).2).nextId := by
  intro is
  induction is with
  | nil =>
    intro s
    simp [recursOperands]
  | cons i rest ih =>
    intro s
    simp only [recursOperands]
    cases hcall : recCall (group.map (fun nj => g.inputAt nj i)) s with
    | mk r s2 =>
      have h1 : s.nextId ≤ s2.nextId := by
        have hh := hrec (group.map (fun nj => g.inputAt nj i)) s
        rw [hcall] at hh
        exact hh
      cases r with
      | some child =>
        have h2 := ih (SetOperand s2 pid i child)
        rw [setOperand_nextId] at h2
        exact le_trans h1 h2
      | none => exact h1

theorem newPackNodeAndRecurs_nextId
    (recCall : List Nat → SLPState → Option Nat × SLPState)
    (hrec : ∀ gr st, st.nextId ≤ ((recCall gr st).2).nextId)
    (g : Graph) (group : List Nat) (start count : Nat) (s : SLPState) :
    s.nextId + 1 ≤ ((NewPackNodeAndRecurs recCall g group start count s).2).nextId := by
  unfold NewPackNodeAndRecurs
  have hh := recursOperands_nextId recCall hrec g group (NewPackNode s group).1
    (List.range' start count) (NewPackNode s group).2
  rw [newPackNode_nextId] at hh
  exact hh

theorem dispatch_nextId
    (recCall : List Nat → SLPState → Option Nat × SLPState)
    (hrec : ∀ gr st, st.nextId ≤ ((recCall gr st).2).nextId)
    (g : Graph) (group : List Nat) (s1 : SLPState) :
    s1.nextId ≤ ((dispatch recCall g group s1).2).nextId := by
  simp only [dispatch]
  repeat' split
  all_goals simp only [popStack_nextId, newPackNode_nextId]
  all_goals
    first
    | exact le_refl _
    | exact Nat.le_succ _
    | exact le_trans (Nat.le_succ _) (newPackNodeAndRecurs_nextId recCall hrec g group _ _ s1)

theorem buildTreeRec_nextId (g : Graph) :
    ∀ fuel group s, s.nextId ≤ ((BuildTreeRec g fuel group s).2).nextId := by
  intro fuel
  induction fuel with
  | zero =>
    intro group s
    simp [BuildTreeRec]
  | succ fuel ih =>
    intro group s
    simp only [BuildTreeRec]
    split
    · exact le_refl _
    · split
      · simp only [pushStack_nextId]
        exact le_refl _
      · split
        · split
          · simp only [popStack_nextId, pushStack_nextId]
            exact le_refl _
          · simp only [pushStack_nextId]
            exact le_refl _
        · have := dispatch_nextId (BuildTreeRec g fuel) ih g group (PushStack s group)
          rw [pushStack_nextId] at this
          exact this

/-! A successful `BuildTreeRec` call pops exactly what it pushed. -/

theorem pushStack_onStack (s : SLPState) (group : List Nat) :
    (PushStack s group).onStack = group.foldl (fun acc n => insertSet n acc) s.onStack := rfl

theorem recursOperands_success
    (recCall : List Nat → SLPState → Option Nat × SLPState)
    (hrec : ∀ gr st pid st', recCall gr st = (some pid, st') →
      st'.stack = st.stack ∧ ∀ x ∈ st'.onStack, x ∈ st.onStack)
    (g : Graph) (group : List Nat) (pid : Nat) :
    ∀ is s q s', recursOperands recCall g group pid is s = (some q, s') →
      s'.stack = s.stack ∧ ∀ x ∈ s'.onStack, x ∈ s.onStack := by
  intro is
  induction is with
  | nil =>
    intro s q s' h
    simp only [recursOperands, Prod.mk.injEq] at h
    rw [← h.2]
    exact ⟨rfl, fun x hx => hx⟩
  | cons i rest ih =>
    intro s q s' h
    simp only [recursOperands] at h
    cases hcall : recCall (group.map (fun nj => g.inputAt nj i)) s with
    | mk r s2 =>
      rw [hcall] at h
      cases r with
      | some child =>
        have h1 := hrec _ _ _ _ hcall
        have h2 := ih (SetOperand s2 pid i child) q s' h
        rw [setOperand_stack, setOperand_onStack] at h2
        exact ⟨h2.1.trans h1.1, fun x hx => h1.2 x (h2.2 x hx)⟩
      | none =>
        exact absurd (congrArg Prod.fst h) (by simp)

theorem npr_wrap_success
    (recCall : List Nat → SLPState → Option Nat × SLPState)
    (hrec : ∀ gr st pid st', recCall gr st = (some pid, st') →
      st'.stack = st.stack ∧ ∀ x ∈ st'.onStack, x ∈ st.onStack)
    (g : Graph) (group : List Nat) (start count : Nat) (s1 : SLPState) (pid : Nat)
    (s' : SLPState)
    (h : ((NewPackNodeAndRecurs recCall g group start count s1).1,
          PopStack (NewPackNodeAndRecurs recCall g group start count s1).2) = (some pid, s')) :
    ∃ r2 : SLPState, s' = PopStack r2 ∧ r2.stack = s1.stack ∧
      ∀ x ∈ r2.onStack, x ∈ s1.onStack := by
  cases hnpr : NewPackNodeAndRecurs recCall g group start count s1 with
  | mk rr ss =>
    rw [hnpr] at h
    simp only [Prod.mk.injEq] at h
    unfold NewPackNodeAndRecurs at hnpr
    have hro := recursOperands_success recCall hrec g group _ _ _ _ _
      (h.1 ▸ hnpr)
    rw [newPackNode_stack, newPackNode_onStack] at hro
    exact ⟨ss, h.2.symm, hro.1, hro.2⟩

theorem dispatch_success
    (recCall : List Nat → SLPState → Option Nat × SLPState)
    (hrec : ∀ gr st pid st', recCall gr st = (some pid, st') →
      st'.stack = st.stack ∧ ∀ x ∈ st'.onStack, x ∈ st.onStack)
    (g : Graph) (group : List Nat) (s1 : SLPState) (pid : Nat) (s' : SLPState)
    (h : dispatch recCall g group s1 = (some pid, s')) :
    ∃ r2 : SLPState, s' = PopStack r2 ∧ r2.stack = s1.stack ∧
      ∀ x ∈ r2.onStack, x ∈ s1.onStack := by
  simp only [dispatch] at h
  repeat' split at h
  all_goals
    first
    | exact ⟨(NewPackNode s1 group).2, (congrArg Prod.snd h).symm, rfl, fun x hx => hx⟩
    | exact npr_wrap_success recCall hrec g group _ _ s1 pid s' h
    | exact absurd (congrArg Prod.fst h) (by simp)

theorem popStack_pushStack (s : SLPState) (group : List Nat) :
    (PopStack (PushStack s group)).stack = s.stack ∧
      ∀ x ∈ (PopStack (PushStack s group)).onStack, x ∈ s.onStack := by
  rw [popStack_of_stack_eq (PushStack s group) group s.stack (pushStack_stack s group)]
  refine ⟨rfl, fun x hx => ?_⟩
  simp only at hx
  rw [mem_eraseAll] at hx
  rcases hx with ⟨hx1, hx2⟩
  rw [pushStack_onStack, mem_insertAll] at hx1
  tauto

theorem buildTreeRec_success (g : Graph) :
    ∀ fuel group s pid s', BuildTreeRec g fuel group s = (some pid, s') →
      s'.stack = s.stack ∧ ∀ x ∈ s'.onStack, x ∈ s.onStack := by
  intro fuel
  induction fuel with
  | zero =>
    intro group s pid s' h
    exact absurd (congrArg Prod.fst h) (by simp [BuildTreeRec])
  | succ fuel ih =>
    intro group s pid s' h
    simp only [BuildTreeRec] at h
    split at h
    · exact absurd (congrArg Prod.fst h) (by simp)
    · split at h
      · exact absurd (congrArg Prod.fst h) (by simp)
      · split at h
        · split at h
          · simp only [Prod.mk.injEq] at h
            rw [← h.2]
            exact popStack_pushStack s group
          · exact absurd (congrArg Prod.fst h) (by simp)
        · obtain ⟨r2, hs', hstack, hsub⟩ := dispatch_success (BuildTreeRec g fuel) ih g group _ pid s' h
          rw [pushStack_stack] at hstack
          have hpop := popStack_of_stack_eq r2 group s.stack hstack
          rw [hs', hpop]
          refine ⟨rfl, fun x hx => ?_⟩
          simp only at hx
          rw [mem_eraseAll] at hx
          rcases hx with ⟨hx1, hx2⟩
          have := hsub x hx1
          rw [pushStack_onStack, mem_insertAll] at this
          tauto

/-! Preservation of the registry invariant. -/

theorem setOperand_packs (s : SLPState) (pid i c : Nat) :
    (SetOperand s pid i c).packs =
      updateA s.packs pid (fun p => { p with operands := (i, c) :: p.operands }) := rfl

theorem wf_of_eqRegistry (start : Nat) (s s' : SLPState)
    (hp : s'.packs = s.packs) (hn : s'.nodeToPack = s.nodeToPack)
    (hi : s'.nextId = s.nextId) (h : StateWF start s) : StateWF start s' := by
  unfold StateWF packsBound at h ⊢
  rw [hp, hn, hi]
  exact h

theorem pushStack_WF (start : Nat) (s : SLPState) (group : List Nat)
    (h : StateWF start s) : StateWF start (PushStack s group) :=
  wf_of_eqRegistry start s _ rfl rfl rfl h

theorem popStack_WF (start : Nat) (s : SLPState) (h : StateWF start s) :
    StateWF start (PopStack s) :=
  wf_of_eqRegistry start s _ (popStack_packs s) (popStack_nodeToPack s) (popStack_nextId s) h

theorem setOperand_WF (start : Nat) (s : SLPState) (pid i child : Nat)
    (h : StateWF start s) : StateWF start (SetOperand s pid i child) := by
  obtain ⟨h1, h2, h3, h4⟩ := h
  refine ⟨h1, ?_, ?_, ?_⟩
  · intro q p hq
    rw [setOperand_packs, lookupA_updateA] at hq
    rw [setOperand_nextId]
    by_cases hqp : q = pid
    · rw [if_pos hqp] at hq
      cases hl : lookupA s.packs pid with
      | none => rw [hl] at hq; cases hq
      | some p0 =>
        have := h2 pid p0 hl
        omega
    · rw [if_neg hqp] at hq
      exact h2 q p hq
  · intro n q hq
    rw [setOperand_nodeToPack] at hq
    obtain ⟨hse, p, hp, hnp⟩ := h3 n q hq
    refine ⟨hse, ?_⟩
    by_cases hqp : q = pid
    · subst hqp
      refine ⟨{ p with operands := (i, child) :: p.operands }, ?_, hnp⟩
      rw [setOperand_packs, lookupA_updateA, if_pos rfl, hp]
      rfl
    · refine ⟨p, ?_, hnp⟩
      rw [setOperand_packs, lookupA_updateA, if_neg hqp]
      exact hp
  · intro q p hse hq n hn
    rw [setOperand_nodeToPack]
    rw [setOperand_packs, lookupA_updateA] at hq
    by_cases hqp : q = pid
    · rw [if_pos hqp] at hq
      cases hl : lookupA s.packs pid with
      | none => rw [hl] at hq; cases hq
      | some p0 =>
        rw [hl] at hq
        injection hq with he
        have hn0 : n ∈ p0.nodes := by
          rw [← he] at hn
          exact hn
        rw [hqp]
        exact h4 pid p0 (hqp ▸ hse) hl n hn0
    · rw [if_neg hqp] at hq
      exact h4 q p hse hq n hn

theorem newPackNode_WF (start : Nat) (s : SLPState) (group : List Nat)
    (h : StateWF start s) (hfree : ∀ n ∈ group, lookupA s.nodeToPack n = none) :
    StateWF start ((NewPackNode s group).2) := by
  obtain ⟨h1, h2, h3, h4⟩ := h
  refine ⟨?_, ?_, ?_, ?_⟩
  · rw [newPackNode_nextId]
    omega
  · intro pid p hp
    rw [newPackNode_packs, lookupA_cons] at hp
    rw [newPackNode_nextId]
    by_cases hps : pid = s.nextId
    · omega
    · rw [if_neg hps] at hp
      have := h2 pid p hp
      omega
  · intro n pid hnp
    rw [newPackNode_lookup] at hnp
    by_cases hng : n ∈ group
    · rw [if_pos hng] at hnp
      injection hnp with he
      refine ⟨by omega, { nodes := group, operands := [] }, ?_, hng⟩
      rw [newPackNode_packs, lookupA_cons, if_pos he.symm]
    · rw [if_neg hng] at hnp
      obtain ⟨hse, p, hp, hmem⟩ := h3 n pid hnp
      have hlt := h2 pid p hp
      refine ⟨hse, p, ?_, hmem⟩
      rw [newPackNode_packs, lookupA_cons, if_neg (by omega)]
      exact hp
  · intro pid p hse hp n hn
    rw [newPackNode_packs, lookupA_cons] at hp
    rw [newPackNode_lookup]
    by_cases hps : pid = s.nextId
    · rw [if_pos hps] at hp
      injection hp with he
      have hng : n ∈ group := by
        rw [← he] at hn
        exact hn
      rw [if_pos hng, hps]
    · rw [if_neg hps] at hp
      have hreg := h4 pid p hse hp n hn
      have hng : n ∉ group := by
        intro hmem
        rw [hfree n hmem] at hreg
        cases hreg
      rw [if_neg hng]
      exact hreg

theorem recursOperands_WF
    (recCall : List Nat → SLPState → Option Nat × SLPState)
    (hrec : ∀ start gr st r st', StateWF start st → recCall gr st = (r, st') →
      StateWF start st')
    (g : Graph) (group : List Nat) (pid : Nat) :
    ∀ is start s r s', StateWF start s →
      recursOperands recCall g group pid is s = (r, s') → StateWF start s' := by
  intro is
  induction is with
  | nil =>
    intro start s r s' hwf h
    simp only [recursOperands, Prod.mk.injEq] at h
    rw [← h.2]
    exact hwf
  | cons i rest ih =>
    intro start s r s' hwf h
    simp only [recursOperands] at h
    cases hcall : recCall (group.map (fun nj => g.inputAt nj i)) s with
    | mk rr s2 =>
      rw [hcall] at h
      have h2 := hrec start _ _ _ _ hwf hcall
      cases rr with
      | some child =>
        exact ih start _ r s' (setOperand_WF start s2 pid i child h2) h
      | none =>
        simp only [Prod.mk.injEq] at h
        rw [← h.2]
        exact h2

theorem npr_WF
    (recCall : List Nat → SLPState → Option Nat × SLPState)
    (hrec : ∀ start gr st r st', StateWF start st → recCall gr st = (r, st') →
      StateWF start st')
    (g : Graph) (group : List Nat) (start count : Nat) (start0 : Nat) (s1 : SLPState)
    (r : Option Nat) (s2 : SLPState)
    (hwf : StateWF start0 s1) (hfree : ∀ n ∈ group, lookupA s1.nodeToPack n = none)
    (h : NewPackNodeAndRecurs recCall g group start count s1 = (r, s2)) :
    StateWF start0 s2 := by
  unfold NewPackNodeAndRecurs at h
  exact recursOperands_WF recCall hrec g group _ _ start0 _ r s2
    (newPackNode_WF start0 s1 group hwf hfree) h

theorem dispatch_WF
    (recCall : List Nat → SLPState → Option Nat × SLPState)
    (hrec : ∀ start gr st r st', StateWF start st → recCall gr st = (r, st') →
      StateWF start st')
    (g : Graph) (group : List Nat) (start : Nat) (s1 : SLPState) (r : Option Nat)
    (s' : SLPState)
    (hwf : StateWF start s1)
    (hfree : ∀ n ∈ group, lookupA s1.nodeToPack n = none)
    (h : dispatch recCall g group s1 = (r, s')) :
    StateWF start s' := by
  simp only [dispatch] at h
  repeat' split at h
  all_goals simp only [Prod.mk.injEq] at h
  all_goals rw [← h.2]
  all_goals
    first
    | exact hwf
    | exact popStack_WF start _ (newPackNode_WF start s1 group hwf hfree)
    | exact popStack_WF start _
        (npr_WF recCall hrec g group _ _ start s1 _ _ hwf hfree rfl)

theorem buildTreeRec_WF (g : Graph) :
    ∀ fuel start group s r s', StateWF start s →
      BuildTreeRec g fuel group s = (r, s') → StateWF start s' := by
  intro fuel
  induction fuel with
  | zero =>
    intro start group s r s' hwf h
    simp only [BuildTreeRec, Prod.mk.injEq] at h
    rw [← h.2]
    exact hwf
  | succ fuel ih =>
    intro start group s r s' hwf h
    simp only [BuildTreeRec] at h
    split at h
    · simp only [Prod.mk.injEq] at h
      rw [← h.2]
      exact hwf
    · split at h
      · simp only [Prod.mk.injEq] at h
        rw [← h.2]
        exact pushStack_WF start s group hwf
      · split at h
        · split at h
          · simp only [Prod.mk.injEq] at h
            rw [← h.2]
            exact popStack_WF start _ (pushStack_WF start s group hwf)
          · simp only [Prod.mk.injEq] at h
            rw [← h.2]
            exact pushStack_WF start s group hwf
        · rename_i hreg
          have hfree : ∀ n ∈ group, lookupA (PushStack s group).nodeToPack n = none :=
            fun n hn => (findRegistered_eq_none _ _).mp hreg n hn
          exact dispatch_WF (BuildTreeRec g fuel)
            (fun st gr stt rr stt' hw hh => ih st gr stt rr stt' hw hh)
            g group start _ r s' (pushStack_WF start s group hwf) hfree h

theorem registryUnique_of_WF (start : Nat) (s : SLPState) (h : StateWF start s) :
    RegistryUnique start s := by
  obtain ⟨h1, h2, h3, h4⟩ := h
  intro pid1 pid2 p1 p2 n hs1 hs2 hp1 hp2 hn1 hn2
  have e1 := h4 pid1 p1 hs1 hp1 n hn1
  have e2 := h4 pid2 p2 hs2 hp2 n hn2
  rw [e1] at e2
  exact Option.some.inj e2

theorem deleteTree_WF (s : SLPState) (hb : packsBound s) :
    StateWF s.nextId (DeleteTree s) := by
  refine ⟨le_refl _, ?_, ?_, ?_⟩
  · intro pid p hp
    exact hb pid p hp
  · intro n pid hnp
    simp [lookupA] at hnp
  · intro pid p hse hp n hn
    exact absurd (hb pid p hp) (by omega)

/-! A failing call that got past the cycle check never returns the state
it was given: either the pushed frame is still there, or a pack was
allocated. -/

theorem dispatch_none
    (recCall : List Nat → SLPState → Option Nat × SLPState)
    (hrec : ∀ gr st, st.nextId ≤ ((recCall gr st).2).nextId)
    (g : Graph) (group : List Nat) (s1 s' : SLPState)
    (h : dispatch recCall g group s1 = (none, s')) :
    s' = s1 ∨ s1.nextId < s'.nextId := by
  simp only [dispatch] at h
  repeat' split at h
  all_goals simp only [Prod.mk.injEq] at h
  all_goals
    first
    | exact Or.inl h.2.symm
    | (refine Or.inr ?_
       rw [← h.2, popStack_nextId]
       exact lt_of_lt_of_le (Nat.lt_succ_self _)
         (newPackNodeAndRecurs_nextId recCall hrec g group _ _ s1))
    | exact absurd h.1 (by simp)

/-! Claims C1, C2, C7. -/

/-- Claim C1 counterexample: a top-level `BuildTree` on a group that
fails `CanBePacked` (two same-block nodes with different operators)
returns no pack and leaves the pushed group in the on-stack set, so the
on-stack set is not empty when `BuildTree` returns. -/
theorem C1_counterexample :
    (BuildTree gMismatch [0, 1] initState).1 = none ∧
    (BuildTree gMismatch [0, 1] initState).2.onStack ≠ [] := by decide

/-- Claim C1 (amended): when `BuildTree` returns a root `PackNode`, the
on-stack set (and the stack) is empty on return; on a failure return the
groups pushed by failing calls may remain until the next invocation's
`Clear`. -/
theorem C1_buildTree_success_empty_stack (g : Graph) (roots : List Nat) (s : SLPState)
    (pid : Nat) (s' : SLPState) (h : BuildTree g roots s = (some pid, s')) :
    s'.onStack = [] ∧ s'.stack = [] := by
  unfold BuildTree at h
  have hs := buildTreeRec_success g RecursionMaxDepth roots (DeleteTree s) pid s' h
  constructor
  · refine List.eq_nil_iff_forall_not_mem.mpr (fun a ha => ?_)
    have := hs.2 a ha
    simp only [DeleteTree, ClearStack] at this
    exact absurd this (by simp)
  · rw [hs.1]
    rfl

/-- Witness for C1: a concrete successful `BuildTree`. -/
theorem C1_witness :
    (BuildTree gPair [0, 1] initState).2.onStack = [] ∧
    (BuildTree gPair [0, 1] initState).2.stack = [] :=
  C1_buildTree_success_empty_stack gPair [0, 1] initState 0
    (BuildTree gPair [0, 1] initState).2 (by decide)

/-- Claim C2 counterexample: a group with node 0 on the stack and node 1
off it, under a non-phi stack top, is rejected by the cycle check (the
call returns no pack with the state untouched), although the same group
packs from a clean state; this refutes the claim that a group with a node
off the stack is never rejected by the cycle check. -/
theorem C2_counterexample :
    (¬ ∀ n ∈ [0, 1], OnStack stateHalf n = true) ∧
    StackTopIsPhi gPair stateHalf = false ∧
    BuildTreeRec gPair RecursionMaxDepth [0, 1] stateHalf = (none, stateHalf) ∧
    (BuildTreeRec gPair RecursionMaxDepth [0, 1] initState).1.isSome = true := by decide

/-- Claim C2 (amended): with recursion depth remaining, the cycle policy
of `BuildTreeRec` rejects a group — returning no pack with the state
exactly unchanged — precisely when at least one node of the group is
already on the recursion stack (the loop of `AllOnStack` returns true on
the first on-stack member) and the top of the stack is not a phi group. -/
theorem C2_cycle_policy (g : Graph) (fuel : Nat) (s : SLPState) (group : List Nat)
    (hf : fuel ≠ 0) :
    ((∃ n ∈ group, OnStack s n = true) ∧ StackTopIsPhi g s = false) ↔
      BuildTreeRec g fuel group s = (none, s) := by
  obtain ⟨fuel, rfl⟩ : ∃ k, fuel = k + 1 :=
    ⟨fuel - 1, (Nat.succ_pred_eq_of_pos (Nat.pos_of_ne_zero hf)).symm⟩
  constructor
  · rintro ⟨hex, hphi⟩
    have hall : AllOnStack s group = true := (allOnStack_iff s group).mpr hex
    have hguard : (AllOnStack s group && !StackTopIsPhi g s) = true := by
      rw [hall, hphi]
      rfl
    simp only [BuildTreeRec, hguard, if_true]
  · intro h
    by_cases hguard : (AllOnStack s group && !StackTopIsPhi g s) = true
    · rw [Bool.and_eq_true] at hguard
      obtain ⟨ha, hb⟩ := hguard
      refine ⟨(allOnStack_iff s group).mp ha, ?_⟩
      cases hc : StackTopIsPhi g s
      · rfl
      · rw [hc] at hb
        cases hb
    · exfalso
      simp only [BuildTreeRec] at h
      rw [if_neg hguard] at h
      split at h
      · simp only [Prod.mk.injEq] at h
        have hlen := congrArg (fun st => st.stack.length) h.2
        simp only [pushStack_stack, List.length_cons] at hlen
        omega
      · split at h
        · split at h
          · simp only [Prod.mk.injEq] at h
            exact absurd h.1 (by simp)
          · simp only [Prod.mk.injEq] at h
            have hlen := congrArg (fun st => st.stack.length) h.2
            simp only [pushStack_stack, List.length_cons] at hlen
            omega
        · rcases dispatch_none (BuildTreeRec g fuel) (buildTreeRec_nextId g fuel) g group _ s h
            with heq | hlt
          · have hlen := congrArg (fun st => st.stack.length) heq
            simp only [pushStack_stack, List.length_cons] at hlen
            omega
          · rw [pushStack_nextId] at hlt
            exact absurd hlt (lt_irrefl _)

/-- Witness for C2: the amended cycle policy instantiated at the
half-on-stack state. -/
theorem C2_witness :
    ((∃ n ∈ [0, 1], OnStack stateHalf n = true) ∧ StackTopIsPhi gPair stateHalf = false) ↔
      BuildTreeRec gPair 8 [0, 1] stateHalf = (none, stateHalf) :=
  C2_cycle_policy gPair 8 stateHalf [0, 1] (by decide)

/-- Claim C7: the worklist search of `IsSideEffectFreeLoad` terminates on
every finite graph, every state and every group — the visited set lets
each graph node be expanded at most once, so the provided fuel (one more
than the measure `unvisited-nodes * (max-inputs + 1) + worklist-length`)
is never exhausted, cycles included. -/
theorem C7_sideEffectFreeLoad_terminates (g : Graph) (s : SLPState) (group : List Nat) :
    ∃ b, sefCall g s group = some b ∧ IsSideEffectFreeLoad g s group = b := by
  have h := sefCall_isSome g s group
  cases hc : sefCall g s group with
  | none =>
    rw [hc] at h
    cases h
  | some b =>
    refine ⟨b, rfl, ?_⟩
    unfold IsSideEffectFreeLoad
    rw [hc]
    rfl

/-! Claims C6, C8, C9, C10. -/

/-- Claim C6: the memory-offset extractor refines the spec's description:
0 when input 0 is a `Load` or `LoadFromObject`; under an `Int64Add` the
value of the `Int64Constant` input if either input is one (input 0 taking
precedence), the sentinel -1 if neither is; -1 for any other shape. -/
theorem C6_offset_extraction (g : Graph) (n : Nat) :
    GetMemoryOffsetValue g n = offsetSpec g n := by
  unfold GetMemoryOffsetValue offsetSpec IsConstant GetConstantValue
  cases hop : g.opcodeOf (g.inputAt n 0) <;> simp only [hop] <;> try simp
  by_cases h0 : g.opcodeOf (g.inputAt (g.inputAt n 0) 0) = .kInt64Constant
  · simp [h0]
  · simp only [h0, decide_False]
    by_cases h1 : g.opcodeOf (g.inputAt (g.inputAt n 0) 1) = .kInt64Constant
    · simp [h0, h1]
    · simp [h0, h1]

theorem chunkPairs_mem_length : ∀ (l : List Nat), ∀ u ∈ chunkPairs l, u.length = 2
  | [] => by simp [chunkPairs]
  | [a] => by simp [chunkPairs]
  | a :: b :: rest => by
    simp only [chunkPairs, List.mem_cons]
    rintro u (rfl | hu)
    · rfl
    · exact chunkPairs_mem_length rest u hu

theorem chunkPairs_flatten : ∀ (l : List Nat), l.length % 2 = 0 → (chunkPairs l).flatten = l
  | [] => by simp [chunkPairs]
  | [a] => by
    intro h
    simp at h
  | a :: b :: rest => by
    intro h
    have hr : rest.length % 2 = 0 := by
      simp only [List.length_cons] at h
      omega
    simp [chunkPairs, chunkPairs_flatten rest hr]

/-- Claim C8: `ReduceStoreChains` extracts two-element groups only from
chains of even size at least 2 (`storeUnits` is empty otherwise, so a
chain of size 3 contributes nothing and the fold returns `(false, st)`
unchanged); a chain of size 4 is split into exactly the two consecutive
two-element groups, never one 4-wide group, and for every even chain the
extracted units are all of size 2 and concatenate back to the chain. -/
theorem C8_store_chain_grouping (g : Graph) (st : SLPState) (addr : Nat)
    (chainBad chainGood : List Nat) (a b c d : Nat)
    (hbad : ¬(2 ≤ chainBad.length ∧ chainBad.length % 2 = 0))
    (hgood : chainGood.length % 2 = 0) :
    storeUnits chainBad = [] ∧
    ReduceStoreChains g st [(addr, chainBad)] = (false, st) ∧
    storeUnits [a, b, c, d] = [[a, b], [c, d]] ∧
    (∀ u ∈ storeUnits chainGood, u.length = 2) ∧
    (storeUnits chainGood).flatten = chainGood := by
  have h1 : storeUnits chainBad = [] := by
    unfold storeUnits
    rw [if_neg hbad]
  refine ⟨h1, ?_, ?_, ?_, ?_⟩
  · unfold ReduceStoreChains
    simp [h1]
  · unfold storeUnits
    rw [if_pos (by simp)]
    rfl
  · intro u hu
    unfold storeUnits at hu
    split at hu
    · exact chunkPairs_mem_length chainGood u hu
    · cases hu
  · unfold storeUnits
    split
    · exact chunkPairs_flatten chainGood hgood
    · rename_i hcond
      have hlen : chainGood.length = 0 := by
        rcases Nat.lt_or_ge chainGood.length 2 with hlt | hge
        · omega
        · exact absurd ⟨hge, hgood⟩ hcond
      rw [List.eq_nil_of_length_eq_zero hlen]
      rfl

/-- Witness for C8: a size-3 chain yields nothing; a size-4 chain yields
two two-store groups. -/
theorem C8_witness :
    storeUnits [10, 11, 12] = [] ∧
    ReduceStoreChains gBadStore initState [(9, [10, 11, 12])] = (false, initState) ∧
    storeUnits [1, 2, 3, 4] = [[1, 2], [3, 4]] ∧
    (∀ u ∈ storeUnits [1, 2, 3, 4], u.length = 2) ∧
    (storeUnits [1, 2, 3, 4]).flatten = [1, 2, 3, 4] :=
  C8_store_chain_grouping gBadStore initState 9 [10, 11, 12] [1, 2, 3, 4] 1 2 3 4
    (by decide) (by decide)

/-- Claim C9: a group whose first node is a plain `Load` passes the opcode
filter of `CanBePacked`, but `BuildTree` still returns no pack: the leaf
dispatch handles only `ProtectedLoad` and `LoadTransform`, and the opcode
switch has no `kLoad` case, so the group falls to the default failure
branch. -/
theorem C9_plain_load_never_packed (g : Graph) (s : SLPState) (group : List Nat)
    (hl : g.opcodeOf (group.getD 0 0) = .kLoad) :
    (BuildTree g group s).1 = none ∧ SupportedOpcodeFilter g (group.getD 0 0) = true := by
  constructor
  · unfold BuildTree
    have h8 : RecursionMaxDepth = 7 + 1 := rfl
    rw [h8]
    simp only [BuildTreeRec]
    have hcyc : AllOnStack (DeleteTree s) group = false := by
      cases hall : AllOnStack (DeleteTree s) group
      · rfl
      · exfalso
        obtain ⟨n, hn, hon⟩ := (allOnStack_iff _ _).mp hall
        simp [OnStack, DeleteTree, ClearStack] at hon
    simp only [hcyc, Bool.false_and, Bool.false_eq_true, if_false]
    have hfind : findRegistered (PushStack (DeleteTree s) group) group = none := by
      rw [findRegistered_eq_none]
      intro n hn
      rfl
    by_cases hcbp : CanBePacked g group = true
    · simp only [hcbp, Bool.not_true, Bool.false_eq_true, if_false, hfind]
      simp only [dispatch, hl]
      simp
    · have hneg : (!CanBePacked g group) = true := by
        cases hc : CanBePacked g group
        · rfl
        · exact absurd hc hcbp
      simp only [hneg, if_true]
  · unfold SupportedOpcodeFilter IsSimd128Operation
    rw [hl]
    rfl

/-- Witness for C9: two concrete plain loads. -/
theorem C9_witness :
    (BuildTree gPlainLoads [0, 1] initState).1 = none ∧
    SupportedOpcodeFilter gPlainLoads ([0, 1].getD 0 0) = true :=
  C9_plain_load_never_packed gPlainLoads initState [0, 1] (by decide)

theorem mem_storeSetInsert (g : Graph) :
    ∀ (l : List Nat) (n x : Nat), x ∈ storeSetInsert g l n → x ∈ l ∨ x = n
  | [], n, x => by
    simp [storeSetInsert]
  | m :: rest, n, x => by
    simp only [storeSetInsert]
    split
    · intro h
      rcases List.mem_cons.mp h with rfl | h2
      · exact Or.inr rfl
      · exact Or.inl h2
    · split
      · intro h
        rcases List.mem_cons.mp h with rfl | h2
        · exact Or.inl (List.mem_cons_self _ _)
        · rcases mem_storeSetInsert g rest n x h2 with h3 | h3
          · exact Or.inl (List.mem_cons_of_mem _ h3)
          · exact Or.inr h3
      · intro h
        exact Or.inl h

theorem mem_addrMapInsert (g : Graph) :
    ∀ (m : List (Nat × List Nat)) (addr node x : Nat),
      (∃ a ∈ addrMapInsert g m addr node, x ∈ a.2) → (∃ a ∈ m, x ∈ a.2) ∨ x = node
  | [], addr, node, x => by
    simp only [addrMapInsert]
    rintro ⟨a, ha, hx⟩
    rcases List.mem_cons.mp ha with rfl | h2
    · rcases mem_storeSetInsert g [] node x hx with h3 | h3
      · cases h3
      · exact Or.inr h3
    · cases h2
  | (a0, set0) :: rest, addr, node, x => by
    simp only [addrMapInsert]
    split
    · rintro ⟨a, ha, hx⟩
      rcases List.mem_cons.mp ha with rfl | h2
      · rcases mem_storeSetInsert g set0 node x hx with h3 | h3
        · exact Or.inl ⟨(a0, set0), List.mem_cons_self _ _, h3⟩
        · exact Or.inr h3
      · exact Or.inl ⟨a, List.mem_cons_of_mem _ h2, hx⟩
    · rintro ⟨a, ha, hx⟩
      rcases List.mem_cons.mp ha with rfl | h2
      · exact Or.inl ⟨(a0, set0), List.mem_cons_self _ _, hx⟩
      · rcases mem_addrMapInsert g rest addr node x ⟨a, h2, hx⟩ with h3 | h3
        · obtain ⟨a2, ha2, hx2⟩ := h3
          exact Or.inl ⟨a2, List.mem_cons_of_mem _ ha2, hx2⟩
        · exact Or.inr h3

theorem seedMem_domMapInsert (g : Graph) :
    ∀ (gos : List (Nat × List (Nat × List Nat))) (dom addr node x : Nat),
      seedMem (domMapInsert g gos dom addr node) x → seedMem gos x ∨ x = node
  | [], dom, addr, node, x => by
    simp only [domMapInsert, seedMem]
    rintro ⟨e, he, ha⟩
    rcases List.mem_cons.mp he with rfl | h2
    · rcases mem_addrMapInsert g [] addr node x ha with h3 | h3
      · obtain ⟨a2, ha2, _⟩ := h3
        cases ha2
      · exact Or.inr h3
    · cases h2
  | (d0, m0) :: rest, dom, addr, node, x => by
    simp only [domMapInsert, seedMem]
    split
    · rintro ⟨e, he, ha⟩
      rcases List.mem_cons.mp he with rfl | h2
      · rcases mem_addrMapInsert g m0 addr node x ha with h3 | h3
        · exact Or.inl ⟨(d0, m0), List.mem_cons_self _ _, h3⟩
        · exact Or.inr h3
      · exact Or.inl ⟨e, List.mem_cons_of_mem _ h2, ha⟩
    · rintro ⟨e, he, ha⟩
      rcases List.mem_cons.mp he with rfl | h2
      · exact Or.inl ⟨(d0, m0), List.mem_cons_self _ _, ha⟩
      · rcases seedMem_domMapInsert g rest dom addr node x ⟨e, h2, ha⟩ with h3 | h3
        · obtain ⟨e2, he2, ha2⟩ := h3
          exact Or.inl ⟨e2, List.mem_cons_of_mem _ he2, ha2⟩
        · exact Or.inr h3

/-- Claim C10: a store whose input 0 is neither a `Load`/`LoadFromObject`
nor an `Int64Add` with an `Int64Constant` input extracts the sentinel
offset -1, and `CollectSeeds` never inserts it into the group-of-stores
map (the truncated remainder of -1 by 16 is nonzero), so such a store
never becomes a seed. -/
theorem C10_bad_addressing_no_seed (g : Graph) (stores : List Nat) (n : Nat)
    (h1 : g.opcodeOf (g.inputAt n 0) ≠ .kLoad)
    (h2 : g.opcodeOf (g.inputAt n 0) ≠ .kLoadFromObject)
    (h3 : g.opcodeOf (g.inputAt n 0) = .kInt64Add →
      IsConstant g (g.inputAt (g.inputAt n 0) 0) = false ∧
      IsConstant g (g.inputAt (g.inputAt n 0) 1) = false) :
    GetMemoryOffsetValue g n = -1 ∧ ¬seedMem (CollectSeeds g stores) n := by
  have hoff : GetMemoryOffsetValue g n = -1 := by
    unfold GetMemoryOffsetValue
    rw [if_neg (by tauto)]
    by_cases hadd : g.opcodeOf (g.inputAt n 0) = .kInt64Add
    · obtain ⟨hc0, hc1⟩ := h3 hadd
      rw [if_pos hadd, if_neg (by simp [hc0]), if_neg (by simp [hc1])]
    · rw [if_neg hadd]
  refine ⟨hoff, ?_⟩
  suffices hgen : ∀ (st2 : List Nat) (acc : List (Nat × List (Nat × List Nat))),
      ¬seedMem acc n →
      ¬seedMem (st2.foldl (fun gos node =>
        if (GetMemoryOffsetValue g node).tmod kSimd128Size ≠ 0 then gos
        else domMapInsert g gos (g.earlySched.getD node 0) (GetNodeAddress g node) node) acc) n by
    unfold CollectSeeds
    exact hgen stores [] (by simp [seedMem])
  intro st2
  induction st2 with
  | nil =>
    intro acc hacc
    exact hacc
  | cons m rest ih =>
    intro acc hacc
    simp only [List.foldl_cons]
    apply ih
    by_cases hskip : (GetMemoryOffsetValue g m).tmod kSimd128Size ≠ 0
    · rw [if_pos hskip]
      exact hacc
    · rw [if_neg hskip]
      intro hmem
      rcases seedMem_domMapInsert g acc _ _ m n hmem with hh | hh
      · exact hacc hh
      · apply hskip
        rw [← hh, hoff]
        decide

/-- Witness for C10: a concrete store with opaque addressing collects no
seed. -/
theorem C10_witness :
    GetMemoryOffsetValue gBadStore 0 = -1 ∧ ¬seedMem (CollectSeeds gBadStore [0]) 0 :=
  C10_bad_addressing_no_seed gBadStore [0] 0 (by decide) (by decide) (by decide)

/-! Claims C3, C4, C5. -/

theorem dispatch_extract
    (recCall : List Nat → SLPState → Option Nat × SLPState)
    (g : Graph) (a b : Nat) (s1 : SLPState)
    (ha : g.opcodeOf a = .kExtractF128) :
    dispatch recCall g [a, b] s1 =
      (if g.inputAt a 0 = g.inputAt b 0 ∧
          (if g.opcodeOf (g.inputAt a 0) = .kLoadTransform then a = b
           else (g.opOf a).param + 1 = (g.opOf b).param) then
        (some (NewPackNode s1 [a, b]).1, PopStack (NewPackNode s1 [a, b]).2)
      else (none, s1)) := by
  simp only [dispatch, List.getD_cons_zero, List.getD_cons_succ, ha]
  simp

theorem dispatch_protected_load
    (recCall : List Nat → SLPState → Option Nat × SLPState)
    (g : Graph) (a b : Nat) (s1 : SLPState)
    (ha : g.opcodeOf a = .kProtectedLoad) :
    dispatch recCall g [a, b] s1 =
      (if AllSameAddress g [a, b] = true ∧ (g.opOf a).rep = .kSimd128 ∧
          IsContinuousAccess g (sortByOffset g [a, b]) = true ∧
          IsSideEffectFreeLoad g s1 [a, b] = true then
        (some (NewPackNode s1 [a, b]).1, PopStack (NewPackNode s1 [a, b]).2)
      else (none, s1)) := by
  cases h1 : AllSameAddress g [a, b] <;>
    by_cases h2 : (g.opOf a).rep = MachineRep.kSimd128 <;>
      cases h3 : IsContinuousAccess g (sortByOffset g [a, b]) <;>
        cases h4 : IsSideEffectFreeLoad g s1 [a, b] <;>
          simp [dispatch, ha, h1, h2, h3, h4]

theorem allSameOperator_pair (g : Graph) (a b : Nat)
    (h : AllSameOperator g [a, b] = true) : (g.node b).opId = (g.node a).opId := by
  unfold AllSameOperator at h
  simp at h
  exact h

theorem canBePacked_sameOperator (g : Graph) (a b : Nat)
    (h : CanBePacked g [a, b] = true) : g.opOf b = g.opOf a := by
  unfold CanBePacked at h
  rw [Bool.and_eq_true, Bool.and_eq_true] at h
  have hop := allSameOperator_pair g a b h.2.1
  unfold Graph.opOf
  rw [hop]

/-- Claim C3 counterexample: two distinct same-block `ExtractF128` nodes
(ids 1, 2) over the same non-`LoadTransform` source with lane parameters
0 and 1 — the consecutive-lanes case the claim says must produce a leaf
pack — are rejected: `BuildTree` returns no pack. -/
theorem C3_counterexample :
    (1 : Nat) ≠ 2 ∧
    SameBasicBlock gExtract 1 2 = true ∧
    gExtract.inputAt 1 0 = gExtract.inputAt 2 0 ∧
    gExtract.opcodeOf (gExtract.inputAt 1 0) ≠ .kLoadTransform ∧
    (gExtract.opOf 1).param + 1 = (gExtract.opOf 2).param ∧
    (BuildTree gExtract [1, 2] initState).1 = none := by decide

/-- Claim C3 (amended): with depth remaining, the cycle check passed and
no diamond re-encounter, `BuildTreeRec` on a group of two `ExtractF128`
nodes returns a pack iff the two nodes are one and the same node and the
shared source is a `LoadTransform` (the splat case).  In particular the
consecutive-lanes case never succeeds: `CanBePacked`'s identical-operator
gate runs before the `ExtractF128` dispatch, and operator equality forces
equal lane parameters, so the lane-0/lane-1 branch is unreachable. -/
theorem C3_extract_pack_iff (g : Graph) (fuel : Nat) (s : SLPState) (a b : Nat)
    (ha : g.opcodeOf a = .kExtractF128) (hb : g.opcodeOf b = .kExtractF128)
    (hf : fuel ≠ 0)
    (hcyc : (AllOnStack s [a, b] && !StackTopIsPhi g s) = false)
    (hdia : findRegistered (PushStack s [a, b]) [a, b] = none) :
    (BuildTreeRec g fuel [a, b] s).1.isSome = true ↔
      (a = b ∧ g.opcodeOf (g.inputAt a 0) = .kLoadTransform) := by
  obtain ⟨fuel, rfl⟩ : ∃ k, fuel = k + 1 :=
    ⟨fuel - 1, (Nat.succ_pred_eq_of_pos (Nat.pos_of_ne_zero hf)).symm⟩
  simp only [BuildTreeRec, hcyc, Bool.false_eq_true, if_false]
  by_cases hcbp : CanBePacked g [a, b] = true
  · simp only [hcbp, Bool.not_true, Bool.false_eq_true, if_false, hdia]
    rw [dispatch_extract (BuildTreeRec g fuel) g a b (PushStack s [a, b]) ha]
    have hopeq := canBePacked_sameOperator g a b hcbp
    constructor
    · intro hsome
      by_cases hcond : g.inputAt a 0 = g.inputAt b 0 ∧
          (if g.opcodeOf (g.inputAt a 0) = .kLoadTransform then a = b
           else (g.opOf a).param + 1 = (g.opOf b).param)
      · obtain ⟨hin, hrest⟩ := hcond
        by_cases hlt : g.opcodeOf (g.inputAt a 0) = .kLoadTransform
        · rw [if_pos hlt] at hrest
          exact ⟨hrest, hlt⟩
        · rw [if_neg hlt] at hrest
          rw [hopeq] at hrest
          exfalso
          omega
      · rw [if_neg hcond] at hsome
        simp at hsome
    · rintro ⟨rfl, hlt⟩
      rw [if_pos ⟨rfl, by rw [if_pos hlt]⟩]
      rfl
  · have hneg : (!CanBePacked g [a, b]) = true := by
      cases hc : CanBePacked g [a, b]
      · rfl
      · exact absurd hc hcbp
    simp only [hneg, if_true]
    constructor
    · intro hsome
      simp at hsome
    · rintro ⟨rfl, hlt⟩
      exfalso
      apply hcbp
      unfold CanBePacked AllSameOperator AllConstant IsConstant SupportedOpcodeFilter
        IsSimd128Operation SameBasicBlock
      simp [ha]

/-- Witness for C3: the splat case (node 3 paired with itself over a
`LoadTransform` source) instantiates the amended characterization. -/
theorem C3_witness :
    (BuildTreeRec gExtract 8 [3, 3] initState).1.isSome = true ↔
      ((3 : Nat) = 3 ∧ gExtract.opcodeOf (gExtract.inputAt 3 0) = .kLoadTransform) :=
  C3_extract_pack_iff gExtract 8 initState 3 3 (by decide) (by decide) (by decide)
    (by decide) (by decide)

/-- Claim C4: after any top-level `BuildTree` call the registry is
coherent — every node of a pack allocated during the call maps to exactly
that pack (`StateWF`), so no node belongs to two packs
(`RegistryUnique`) — and a re-encounter of a group with a registered node
is resolved by the diamond-merge rule: the previously registered pack id
itself is returned when the pack matches the group element-wise, and no
pack is returned when it does not. -/
theorem C4_registry_unique_and_diamond (g : Graph) (roots : List Nat) (s : SLPState)
    (r : Option Nat) (s' : SLPState) (fuel : Nat) (group : List Nat) (s2 : SLPState)
    (pid : Nat)
    (hb : packsBound s)
    (hbt : BuildTree g roots s = (r, s'))
    (hf : fuel ≠ 0)
    (hcyc : (AllOnStack s2 group && !StackTopIsPhi g s2) = false)
    (hcbp : CanBePacked g group = true)
    (hfind : findRegistered (PushStack s2 group) group = some pid) :
    StateWF s.nextId s' ∧ RegistryUnique s.nextId s' ∧
      BuildTreeRec g fuel group s2 =
        (if packIsSame (PushStack s2 group) pid group then
          (some pid, PopStack (PushStack s2 group))
        else (none, PushStack s2 group)) := by
  have hwf0 := deleteTree_WF s hb
  unfold BuildTree at hbt
  have hwf := buildTreeRec_WF g RecursionMaxDepth s.nextId roots (DeleteTree s) r s' hwf0 hbt
  refine ⟨hwf, registryUnique_of_WF _ _ hwf, ?_⟩
  obtain ⟨fuel, rfl⟩ : ∃ k, fuel = k + 1 :=
    ⟨fuel - 1, (Nat.succ_pred_eq_of_pos (Nat.pos_of_ne_zero hf)).symm⟩
  simp only [BuildTreeRec, hcyc, Bool.false_eq_true, if_false, hcbp, Bool.not_true, hfind]

/-- Witness for C4: the invariant after a concrete successful build, and
a concrete diamond re-encounter returning the registered pack id 0. -/
theorem C4_witness :
    StateWF initState.nextId (BuildTree gPair [0, 1] initState).2 ∧
    RegistryUnique initState.nextId (BuildTree gPair [0, 1] initState).2 ∧
    BuildTreeRec gPair 8 [0, 1] statePacked =
      (if packIsSame (PushStack statePacked [0, 1]) 0 [0, 1] then
        (some 0, PopStack (PushStack statePacked [0, 1]))
      else (none, PushStack statePacked [0, 1])) :=
  C4_registry_unique_and_diamond gPair [0, 1] initState
    (BuildTree gPair [0, 1] initState).1 (BuildTree gPair [0, 1] initState).2
    8 [0, 1] statePacked 0
    (fun pid p hp => by simp [lookupA] at hp) rfl (by decide) (by decide) (by decide)
    (by decide)

/-- Claim C5: with depth remaining, the cycle check passed, `CanBePacked`
true and no diamond re-encounter, `BuildTreeRec` on a group of two
`ProtectedLoad` nodes creates a leaf pack (a pack over exactly the group,
with no operands) iff the group shares one address node (looking through
`ChangeUint32ToUint64` on input 1), the load representation is the
128-bit SIMD type, the two nodes sorted by ascending offset are
contiguous with delta exactly 16, and `IsSideEffectFreeLoad` passes on
the pushed state; failure of any condition yields no pack. -/
theorem C5_protected_load_leaf (g : Graph) (fuel : Nat) (s : SLPState) (a b : Nat)
    (ha : g.opcodeOf a = .kProtectedLoad)
    (hf : fuel ≠ 0)
    (hcyc : (AllOnStack s [a, b] && !StackTopIsPhi g s) = false)
    (hcbp : CanBePacked g [a, b] = true)
    (hdia : findRegistered (PushStack s [a, b]) [a, b] = none) :
    (∃ pid s', BuildTreeRec g fuel [a, b] s = (some pid, s') ∧
        lookupA s'.packs pid = some { nodes := [a, b], operands := [] }) ↔
      (AllSameAddress g [a, b] = true ∧ (g.opOf a).rep = .kSimd128 ∧
       IsContinuousAccess g (sortByOffset g [a, b]) = true ∧
       IsSideEffectFreeLoad g (PushStack s [a, b]) [a, b] = true) := by
  obtain ⟨fuel, rfl⟩ : ∃ k, fuel = k + 1 :=
    ⟨fuel - 1, (Nat.succ_pred_eq_of_pos (Nat.pos_of_ne_zero hf)).symm⟩
  simp only [BuildTreeRec, hcyc, Bool.false_eq_true, if_false, hcbp, Bool.not_true, hdia]
  rw [dispatch_protected_load (BuildTreeRec g fuel) g a b (PushStack s [a, b]) ha]
  by_cases hcond : AllSameAddress g [a, b] = true ∧ (g.opOf a).rep = .kSimd128 ∧
      IsContinuousAccess g (sortByOffset g [a, b]) = true ∧
      IsSideEffectFreeLoad g (PushStack s [a, b]) [a, b] = true
  · rw [if_pos hcond]
    constructor
    · intro _
      exact hcond
    · intro _
      refine ⟨(NewPackNode (PushStack s [a, b]) [a, b]).1,
        PopStack (NewPackNode (PushStack s [a, b]) [a, b]).2, rfl, ?_⟩
      rw [popStack_packs, newPackNode_packs, newPackNode_fst, lookupA_cons, if_pos rfl]
  · rw [if_neg hcond]
    constructor
    · rintro ⟨pid, s', heq, hlk⟩
      exact absurd (congrArg Prod.fst heq) (by simp)
    · intro hc
      exact absurd hc hcond

/-- Witness for C5: the concrete contiguous `ProtectedLoad` pair. -/
theorem C5_witness :
    (∃ pid s', BuildTreeRec gLoads 8 [6, 7] initState = (some pid, s') ∧
        lookupA s'.packs pid = some { nodes := [6, 7], operands := [] }) ↔
      (AllSameAddress gLoads [6, 7] = true ∧ (gLoads.opOf 6).rep = .kSimd128 ∧
       IsContinuousAccess gLoads (sortByOffset gLoads [6, 7]) = true ∧
       IsSideEffectFreeLoad gLoads (PushStack initState [6, 7]) [6, 7] = true) :=
  C5_protected_load_leaf gLoads 8 initState 6 7 (by decide) (by decide) (by decide)
    (by decide) (by decide)

end Revec
